import Mathlib

/-!
Verification development for the `monitor` package (a thin Prometheus
instrumentation client).

The Go sources are shallowly embedded below:

* label maps (`map[string]string`) become association lists whose update
  operation rewrites the binding in place or appends a fresh one, matching
  Go map assignment; reads go through `findA` (first binding with the key —
  by construction keys are unique);
* the per-kind metric caches (`syncs.Map`) become association lists inside an
  explicit `ClientState` record, and every instrumentation call becomes a
  total function `ClientState → ClientState` (the Go functions return no
  error to their caller);
* `float64` metric values become `ℚ` (the claims never depend on floating
  point rounding), `time.Duration` becomes integer nanoseconds;
* concurrency (claim about the first-use registration race) is embedded as a
  small interleaving model: each concurrent caller is a three-step program
  and an arbitrary schedule interleaves the atomic steps.
-/

namespace Monitor

/-! ## Association lists (Go maps and the vec caches) -/

/-- First binding for key `k` (Go map read / `syncs.Map.Load`). -/
def findA {κ α : Type} [DecidableEq κ] : List (κ × α) → κ → Option α
  | [], _ => none
  | p :: l, k => if p.1 = k then some p.2 else findA l k

/-- Rewrite every binding of key `k` through `f` (used by `putA`). -/
def updA {κ α : Type} [DecidableEq κ] (l : List (κ × α)) (k : κ) (f : α → α) : List (κ × α) :=
  l.map (fun p => if p.1 = k then (p.1, f p.2) else p)

/-- Go map assignment `l[k] = a`: replace the existing binding, else append. -/
def putA {κ α : Type} [DecidableEq κ] (l : List (κ × α)) (k : κ) (a : α) : List (κ × α) :=
  if (findA l k).isSome then updA l k (fun _ => a) else l ++ [(k, a)]

theorem findA_updA {κ α : Type} [DecidableEq κ] (l : List (κ × α)) (k k' : κ) (f : α → α) :
    findA (updA l k f) k' =
      if k' = k then (findA l k').map f else findA l k' := by
  induction l with
  | nil => simp [findA, updA]
  | cons p l ih =>
    simp only [updA] at ih ⊢
    by_cases hpk : p.1 = k
    · by_cases hk : k' = k
      · subst hpk; subst hk; simp [findA]
      · subst hpk
        have hne : p.1 ≠ k' := fun hh => hk hh.symm
        rw [if_neg hk] at ih
        simp only [List.map_cons, if_pos rfl]
        simp [findA, hne, hk, ih]
    · by_cases hk : k' = k
      · subst hk
        rw [if_pos rfl] at ih
        simp [findA, hpk, ih]
      · rw [if_neg hk] at ih
        simp only [List.map_cons, if_neg hpk]
        simp [findA, hk, ih]

theorem findA_append {κ α : Type} [DecidableEq κ] (l l' : List (κ × α)) (k : κ) :
    findA (l ++ l') k = ((findA l k).map some).getD (findA l' k) := by
  induction l with
  | nil => simp [findA]
  | cons p l ih =>
    rw [List.cons_append]
    by_cases hp : p.1 = k <;> simp [findA, hp, ih]

theorem findA_putA_self {κ α : Type} [DecidableEq κ] (l : List (κ × α)) (k : κ) (a : α) :
    findA (putA l k a) k = some a := by
  unfold putA
  by_cases h : (findA l k).isSome = true
  · rcases Option.isSome_iff_exists.mp h with ⟨b, hb⟩
    simp [findA_updA, hb]
  · have hnone : findA l k = none := Option.not_isSome_iff_eq_none.mp h
    simp [h, findA_append, hnone, findA]

theorem findA_putA_ne {κ α : Type} [DecidableEq κ] (l : List (κ × α)) (k k' : κ) (a : α)
    (h : k' ≠ k) :
    findA (putA l k a) k' = findA l k' := by
  unfold putA
  by_cases hs : (findA l k).isSome = true
  · simp [hs, findA_updA, h]
  · simp only [hs, if_false, Bool.false_eq_true, findA_append]
    have hkk : ¬(k = k') := fun hh => h hh.symm
    have hone : findA ([(k, a)] : List (κ × α)) k' = none := by
      simp [findA, hkk]
    rw [hone]
    cases hf : findA l k' <;> simp

/-- Keys of an association list. -/
def keysA {κ α : Type} (l : List (κ × α)) : List κ := l.map (fun p => p.1)

theorem findA_isSome_iff_mem {κ α : Type} [DecidableEq κ] (l : List (κ × α)) (k : κ) :
    (findA l k).isSome = true ↔ k ∈ keysA l := by
  induction l with
  | nil => simp [findA, keysA]
  | cons p l ih =>
    simp only [keysA, List.map_cons] at ih ⊢
    by_cases hp : p.1 = k
    · simp [findA, hp]
    · have hp' : ¬(k = p.1) := fun hh => hp hh.symm
      simp [findA, hp, hp', ih]

/-! ## Label context (ctx.go: `CtxAddLabels`, `CtxGetLabels`, `rangeKV`) -/

/-- A label map `map[string]string`; keys are unique by construction
(`putA` rewrites in place). -/
abbrev LabelMap := List (String × String)

/-- `rangeKV` (ctx.go): consecutive elements of `kvs` form key/value pairs;
an unpaired trailing element is discarded
(`for i := 0; i < size-1; i += 2`). -/
def rangeKV : List String → List (String × String)
  | k :: v :: rest => (k, v) :: rangeKV rest
  | _ => []

/-- Apply a pair list to a map in order, later pairs overwriting earlier ones
on the same key (the `rangeKV(kvs, func(k, v) { m[k] = v })` loop body). -/
def applyKVs (m : LabelMap) (ps : List (String × String)) : LabelMap :=
  ps.foldl (fun m p => putA m p.1 p.2) m

/-- A Go `context.Context` as seen by this package: the value attached under
`ctxKey{}`, if any. -/
structure GoContext where
  labels : Option LabelMap

/-- `ctxGetLabels` (ctx.go): the attached map, or an empty map. -/
def ctxGetLabels (ctx : GoContext) : LabelMap := ctx.labels.getD []

/-- `CtxGetLabels` (ctx.go): returns `maps.Clone` of the attached map; in the
pure embedding the clone is the value itself. -/
def CtxGetLabels (ctx : GoContext) : LabelMap := ctxGetLabels ctx

/-- `CtxAddLabels` (ctx.go): clone the current map, apply the pairs in order,
attach the result to a new context. The original context value is untouched
(the embedding is pure; `context.WithValue` never mutates its receiver). -/
def CtxAddLabels (ctx : GoContext) (kvs : List String) : GoContext :=
  ⟨some (applyKVs (CtxGetLabels ctx) (rangeKV kvs))⟩

/-! ## Name escaping

`EscapeName` (client.go) delegates to `model.EscapeName(s, model.NameEscapingScheme)`
of `prometheus/common`, an external dependency whose source is not part of this
repository. Modelled from the spec: §4.1 describes the algorithm, the source's
own doc comment states it ("strings matching `^[a-zA-Z_:][a-zA-Z0-9_:]*$` are
returned unchanged, others are escaped with a `U__` marker and `_hex_` code
points"), and the repository's `TestEscapeName` pins the literal vectors. -/

/-- A rune legal at byte offset `i` of a legacy metric name: `[a-zA-Z_:]`
anywhere, digits only at `i > 0`. -/
def isValidLegacyRune (c : Char) (i : Nat) : Bool :=
  (('a' ≤ c && c ≤ 'z') || ('A' ≤ c && c ≤ 'Z') || c = '_' || c = ':'
    || (('0' ≤ c && c ≤ '9') && i > 0))

/-- `model.IsValidLegacyMetricName`: nonempty and every rune legal at its
offset. Only offset zero versus nonzero matters, so the tail is checked at
offset 1. -/
def isValidLegacyName (s : String) : Bool :=
  match s.data with
  | [] => false
  | c :: rest => isValidLegacyRune c 0 && rest.all (fun d => isValidLegacyRune d 1)

/-- Lowercase hexadecimal of a code point (Go `strconv.FormatInt(int64(b), 16)`). -/
def hexStr (n : Nat) : String := String.mk (Nat.toDigits 16 n)

/-- The escape loop body: legal runes pass through, every other rune becomes
its code point in hex wrapped in underscores. `i` is zero exactly for the
first rune. -/
def escapeBody : List Char → Nat → String
  | [], _ => ""
  | c :: rest, i =>
      (if isValidLegacyRune c i then String.singleton c
       else "_" ++ hexStr c.toNat ++ "_") ++ escapeBody rest (i + 1)

/-- `EscapeName` (client.go / `model.EscapeName` with the value-encoding
scheme): empty and already-valid names unchanged, otherwise a `U__` marker
followed by the per-rune encoding. -/
def EscapeName (s : String) : String :=
  if s.data = [] then s
  else if isValidLegacyName s then s
  else "U__" ++ escapeBody s.data 0

/-! ## Client configuration and fully-qualified names (client.go) -/

/-- `NameAppend`: per-kind prefix/suffix for metric names. -/
structure NameAppend where
  Prefix : String
  Suffix : String

/-- `NameAppends`: one `NameAppend` per metric kind. -/
structure NameAppends where
  Counter : NameAppend
  Gauge : NameAppend
  Timer : NameAppend
  Histogram : NameAppend
  Summary : NameAppend

/-- The defaults installed by `NewClient` when no appends are configured. -/
def defaultNames : NameAppends :=
  { Counter := ⟨"counter:", ""⟩
    Gauge := ⟨"gauge:", ""⟩
    Timer := ⟨"timer:", "_seconds"⟩
    Histogram := ⟨"histogram:", ""⟩
    Summary := ⟨"summary:", ""⟩ }

/-- `prometheus.DefBuckets`, the default bucket list installed by `NewClient`. -/
def defaultBuckets : List ℚ :=
  [5/1000, 1/100, 25/1000, 5/100, 1/10, 25/100, 5/10, 1, 5/2, 5, 10]

/-- The configuration fields of `client` that the claims exercise
(`constLabels` defaults to the empty map and is omitted; `objectives`,
`gauge` and `summary` state are not needed by any claim). `ns` stands for
the Go field `namespace`, a reserved word here. -/
structure ClientCfg where
  ns : String
  subsystem : String
  names : NameAppends
  buckets : List ℚ

/-- A client as produced by
`NewClient(WithNamespace(ns), WithSubsystem(sub))`: both options escape
their argument; remaining fields take their `NewClient` defaults. -/
def mkClient (ns sub : String) : ClientCfg :=
  ⟨EscapeName ns, EscapeName sub, defaultNames, defaultBuckets⟩

/-- `buildFQName` (client.go): joins the non-empty members of
`[namespace, subsystem, prefix + EscapeName(name) + suffix]` with `":"`
(`iters.Of(...).Filter(values.IsNotZero)` keeps the non-zero strings). -/
def buildFQName (c : ClientCfg) (name : String) (na : NameAppend) : String :=
  let name := na.Prefix ++ EscapeName name ++ na.Suffix
  String.intercalate ":" (([c.ns, c.subsystem, name]).filter (fun s => s ≠ ""))

/-- The spec's formula for the fully-qualified name, §6: `join(":",
nonEmpty(namespace), nonEmpty(subsystem), kindPrefix + escape(rawName) +
kindSuffix)`. Stated separately from `buildFQName` to compare the two. -/
def specFQName (c : ClientCfg) (raw : String) (na : NameAppend) : String :=
  String.intercalate ":"
    (([c.ns, c.subsystem, na.Prefix ++ EscapeName raw ++ na.Suffix]).filter
      (fun s => s ≠ ""))

/-! ## Merged labels of one call (`tags` in client.go) -/

/-- `tags` (client.go): start from the context's labels and apply the call's
explicit pairs, which may overwrite them; the merged map is the call's label
set. -/
def mergedTags (ctx : GoContext) (kvs : List String) : LabelMap :=
  applyKVs (CtxGetLabels ctx) (rangeKV kvs)

/-- The `(keys, tags)` pair returned by `tags` (client.go); `keys` is
`maps.Keys(tags)` (order irrelevant: every consumer compares keys as sets). -/
def tags (ctx : GoContext) (kvs : List String) : List String × LabelMap :=
  (keysA (mergedTags ctx kvs), mergedTags ctx kvs)

/-! ## The shared registry (`prometheus.Registry`, shallowly)

`Registry.Register` deduplicates collectors by their descriptors. A
descriptor is determined by the fully-qualified name, the label names and
the help string (const labels are empty throughout, see `ClientCfg`).
Registering a collector identical to a registered one yields
`AlreadyRegisteredError`; registering a different collector under an
already-registered name yields a different error; otherwise the collector
is added. -/

/-- One registered collector: descriptor data the registry deduplicates on. -/
structure RegEntry where
  name : String
  labelKeys : List String
  help : String
deriving DecidableEq

/-- The two rejection shapes of `Registry.Register`:
`prometheus.AlreadyRegisteredError` (same descriptor) and any other error
(same name, different label names or help). -/
inductive RegError where
  | alreadyRegistered
  | inconsistent
deriving DecidableEq

/-- `Registry.Register`: returns the unchanged registry and an error when the
name is already taken, otherwise appends the entry. -/
def registryRegister (reg : List RegEntry) (e : RegEntry) : List RegEntry × Option RegError :=
  if reg.contains e then (reg, some RegError.alreadyRegistered)
  else if reg.any (fun x => x.name == e.name) then (reg, some RegError.inconsistent)
  else (reg ++ [e], none)

/-! ## Metric families and client state -/

/-- A `prometheus.CounterVec`: the label names fixed at construction and the
child series, keyed by the label values in `labelKeys` order. -/
structure CounterVec where
  labelKeys : List String
  series : List (List String × ℚ)
deriving DecidableEq

/-- `prometheus.HistogramOpts` (the fields the client sets). -/
structure HistogramOpts where
  Name : String
  Help : String
  Buckets : List ℚ
deriving DecidableEq

/-- A `prometheus.HistogramVec`: label names fixed at construction; each child
series keeps the list of observed values. -/
structure HistogramVec where
  labelKeys : List String
  series : List (List String × List ℚ)
deriving DecidableEq

/-- The mutable state one `client` reaches through: the per-kind caches
(`syncs.Map`), the shared registry, and the two failure channels. `errs`
records each invocation of `recordErr(name, kind)` (the ErrorSink; its own
internal counter mechanics are modelled separately, see `ErrState`), `logs`
each logger event kind. `NewClient` always installs a non-nil logger, so the
`c.logger != nil` guard in `register` is always true. -/
structure ClientState where
  counter : List (String × CounterVec)
  histogram : List (String × (HistogramVec × HistogramOpts))
  registry : List RegEntry
  errs : List (String × String)
  logs : List String
deriving DecidableEq

/-- The state of a freshly constructed client: empty caches, fresh registry. -/
def emptyState : ClientState := ⟨[], [], [], [], []⟩

/-- `register` (client.go): try the registry; on failure, log and report to
the ErrorSink under `kind`, with `"_dup"` appended when the error is
`AlreadyRegisteredError` (`isAlreadyRegisteredError`). Never fails upward. -/
def clientRegister (st : ClientState) (e : RegEntry) (kind : String) : ClientState :=
  match registryRegister st.registry e with
  | (reg, none) => { st with registry := reg }
  | (reg, some err) =>
      let dup := err = RegError.alreadyRegistered
      let errKind := kind ++ (if dup then "_dup" else "")
      { st with registry := reg
                logs := st.logs ++ [errKind]
                errs := st.errs ++ [(e.name, errKind)] }

/-- `GetMetricWith`'s success condition (`MetricVec.hashLabels`): the label
map has exactly as many entries as the vec has label names, and every label
name is present. -/
def labelsMatch (keys : List String) (tg : LabelMap) : Bool :=
  tg.length = keys.length && keys.all (fun k => (findA tg k).isSome)

/-- The child-series key: the label values in `labelKeys` order. -/
def seriesKey (keys : List String) (tg : LabelMap) : List String :=
  keys.map (fun k => (findA tg k).getD "")

/-- `Counter.Add` on the child for `key`, creating it at 0 first if absent
(`GetMetricWith` creates missing children). -/
def counterAdd (v : CounterVec) (key : List String) (x : ℚ) : CounterVec :=
  { v with series := putA v.series key ((findA v.series key).getD 0 + x) }

/-- `Histogram.Observe` on the child for `key`: append the observation. -/
def histObserve (v : HistogramVec) (key : List String) (x : ℚ) : HistogramVec :=
  { v with series := putA v.series key ((findA v.series key).getD [] ++ [x]) }

/-- `getCounter` (client.go): `LoadOrStore` a fresh `CounterVec` under the
fully-qualified name; the caller that stores it registers it. -/
def getCounter (st : ClientState) (name help : String) (keys : List String) :
    ClientState × CounterVec :=
  match findA st.counter name with
  | some v => (st, v)
  | none =>
      let v : CounterVec := ⟨keys, []⟩
      let st := { st with counter := st.counter ++ [(name, v)] }
      (clientRegister st ⟨name, keys, help⟩ "register_counter", v)

/-- `RecordN` (client.go): build the fully-qualified counter name, merge the
labels, get-or-create the family, then `GetMetricWith` and `Add`; a label
mismatch drops the observation and reports `get_counter`. Total: nothing is
returned to the caller. -/
def RecordN (c : ClientCfg) (st : ClientState) (ctx : GoContext)
    (name desc : String) (value : ℚ) (kvs : List String) : ClientState :=
  let fq := buildFQName c name c.names.Counter
  let p := tags ctx kvs
  let r := getCounter st fq desc p.1
  if labelsMatch r.2.labelKeys p.2 then
    { r.1 with counter := updA r.1.counter fq (fun w => counterAdd w (seriesKey r.2.labelKeys p.2) value) }
  else
    { r.1 with errs := r.1.errs ++ [(fq, "get_counter")]
               logs := r.1.logs ++ ["get_counter|GetMetricWithLabelFailed"] }

/-- `Record` (client.go): `RecordN` with value 1. -/
def Record (c : ClientCfg) (st : ClientState) (ctx : GoContext)
    (name desc : String) (kvs : List String) : ClientState :=
  RecordN c st ctx name desc 1 kvs

/-- `getHistogram` (client.go): `LoadOrStore` a fresh `HistogramVec` paired
with the opts used to build it; the storing caller registers it. -/
def getHistogram (st : ClientState) (opt : HistogramOpts) (keys : List String) :
    ClientState × (HistogramVec × HistogramOpts) :=
  match findA st.histogram opt.Name with
  | some v => (st, v)
  | none =>
      let v : HistogramVec × HistogramOpts := (⟨keys, []⟩, opt)
      let st := { st with histogram := st.histogram ++ [(opt.Name, v)] }
      (clientRegister st ⟨opt.Name, keys, opt.Help⟩ "register_histogram", v)

/-- `recordHistogram` (client.go): get-or-create the family; if the stored
opts' buckets differ from the requested ones (`slices.Equal`), report
`histogram_buckets_mismatch` and continue with the stored family; then
`GetMetricWith` and `Observe`, dropping the observation on label mismatch. -/
def recordHistogram (c : ClientCfg) (st : ClientState) (ctx : GoContext)
    (fq help : String) (value : ℚ) (buckets : List ℚ) (kvs : List String) : ClientState :=
  let p := tags ctx kvs
  let r := getHistogram st ⟨fq, help, buckets⟩ p.1
  let st :=
    if r.2.2.Buckets = buckets then r.1
    else { r.1 with errs := r.1.errs ++ [(fq, "histogram_buckets_mismatch")]
                    logs := r.1.logs ++ ["histogram_buckets_mismatch"] }
  if labelsMatch r.2.1.labelKeys p.2 then
    { st with histogram := updA st.histogram fq (fun w => (histObserve w.1 (seriesKey r.2.1.labelKeys p.2) value, w.2)) }
  else
    { st with errs := st.errs ++ [(fq, "get_histogram")]
              logs := st.logs ++ ["get_histogram|GetMetricWithLabelFailed"] }

/-- `Histogram` (client.go): record under the `Histogram` name appends. -/
def Histogram (c : ClientCfg) (st : ClientState) (ctx : GoContext)
    (name desc : String) (value : ℚ) (buckets : List ℚ) (kvs : List String) : ClientState :=
  recordHistogram c st ctx (buildFQName c name c.names.Histogram) desc value buckets kvs

/-- `time.Duration` is integer nanoseconds; `Duration.Seconds` divides by 1e9
(exactly, in the `ℚ` embedding of `float64`). -/
def durSeconds (d : ℤ) : ℚ := (d : ℚ) / 1000000000

/-- `Timer` (client.go): captures the bucket choice (the client's default
list when the variadic argument is empty) and the start instant; the
returned stop function computes `cost := time.Since(start)`, records
`cost.Seconds()` under the `Timer` name appends, and returns `cost`.
Instants are integer nanoseconds, so `time.Since(start)` at instant `now`
is `now - start`. -/
def Timer (c : ClientCfg) (buckets : List ℚ) (start : ℤ) :
    ℤ → ClientState → GoContext → String → String → List String → ClientState × ℤ :=
  let buckets := if buckets = [] then c.buckets else buckets
  fun now st ctx name desc kvs =>
    let cost := now - start
    let fq := buildFQName c name c.names.Timer
    (recordHistogram c st ctx fq desc (durSeconds cost) buckets kvs, cost)

/-! ## The ErrorSink's own counter (`recordErr`, client.go)

`recordErr` is modelled with object identity made explicit, because it
creates a **fresh** `CounterVec` on every call, registers the child metric
object (ignoring any error — the last-resort guard against recursion), and
increments that fresh object. The registry holds references to the metric
objects it accepted; gathering reads their current values. -/

/-- One counter metric object: its numeric identity, the descriptor data of
its vec, and the label values of this child. -/
structure ErrMetric where
  id : ℕ
  name : String
  labelKeys : List String
  help : String
  labelValues : List String
deriving DecidableEq

/-- The heap of every counter object ever created by `recordErr` (id ↦ value)
plus the subset of objects the registry accepted. -/
structure ErrState where
  vals : List (ℕ × ℚ)
  nextId : ℕ
  registered : List ErrMetric
deriving DecidableEq

/-- The ErrorSink before any failure report. -/
def errInit : ErrState := ⟨[], 0, []⟩

/-- `recordErr(name, kind)` (client.go): build a fresh
`CounterVec(opt, ["name","kind"])` under the internal error metric's
fully-qualified name, take its `(name, kind)` child, `Register` it on the
client's registry dropping any error silently, and `Inc()` the fresh child.
The registry rejects the child when it already holds an object with the same
descriptor (same fully-qualified name, label names and help), which is the
case from the second call on. -/
def recordErr (c : ClientCfg) (st : ErrState) (name kind : String) : ErrState :=
  let fq := buildFQName c "internal_monitor_error" c.names.Counter
  let m : ErrMetric := ⟨st.nextId, fq, ["name", "kind"], "打点异常", [name, kind]⟩
  let st : ErrState := { st with vals := st.vals ++ [(m.id, 0)], nextId := st.nextId + 1 }
  let st : ErrState :=
    if st.registered.any (fun r => r.name == m.name && r.labelKeys == m.labelKeys && r.help == m.help)
    then st
    else { st with registered := st.registered ++ [m] }
  { st with vals := updA st.vals m.id (fun q => q + 1) }

/-- The value of the registered internal-error series labelled
`(name, kind)`: what `Gather` reports for that time series, `none` when no
registered object carries those label values. -/
def registeredErrSeries (st : ErrState) (name kind : String) : Option ℚ :=
  (st.registered.find? (fun m => m.labelValues == [name, kind])).bind
    (fun m => findA st.vals m.id)

/-! ## The first-use registration race (`getCounter`, client.go)

`syncs.Map.LoadOrStore` is an atomic insert-if-absent. Each of `n`
concurrent callers performing the first observation of one brand-new name
runs three atomic steps against the shared state:

* step 0 — `LoadOrStore(name, freshVec)`: if the cache slot is empty the
  caller's candidate is stored (`loaded = false`, the caller "wins"),
  otherwise the stored family is returned (`loaded = true`);
* step 1 — the winner alone calls `registry.Register` (all callers use the
  same name, label keys and help, and the name is brand new, so the winner's
  registration succeeds); losers skip;
* step 2 — `GetMetricWith` + `Add` on the stored family (every caller
  supplies the family's exact label keys, so the observation is recorded).

A schedule is an arbitrary list of caller indices; running it from the
initial state interleaves the callers' steps arbitrarily. -/

/-- Shared and per-caller state of the race: which caller's candidate family
the cache slot holds, how many registrations the registry received for the
name, how many observations were recorded into the stored family, each
caller's program counter (0, 1, 2; 3 = done) and `loaded`-negation flag. -/
structure RaceState (n : ℕ) where
  owner : Option (Fin n)
  regCount : ℕ
  obs : ℕ
  pc : Fin n → ℕ
  winner : Fin n → Bool

/-- All callers at step 0, cache slot empty, nothing registered or observed. -/
def raceInit (n : ℕ) : RaceState n :=
  ⟨none, 0, 0, fun _ => 0, fun _ => false⟩

/-- One atomic step of caller `i` (no-op when `i` is done). -/
def raceStep {n : ℕ} (s : RaceState n) (i : Fin n) : RaceState n :=
  if s.pc i = 0 then
    match s.owner with
    | none =>
        { s with owner := some i
                 winner := Function.update s.winner i true
                 pc := Function.update s.pc i 1 }
    | some _ =>
        { s with winner := Function.update s.winner i false
                 pc := Function.update s.pc i 1 }
  else if s.pc i = 1 then
    { s with regCount := if s.winner i then s.regCount + 1 else s.regCount
             pc := Function.update s.pc i 2 }
  else if s.pc i = 2 then
    { s with obs := s.obs + 1
             pc := Function.update s.pc i 3 }
  else s

/-- Run a schedule: interleave the callers' atomic steps in the given order. -/
def raceRun {n : ℕ} (s : RaceState n) (sched : List (Fin n)) : RaceState n :=
  sched.foldl raceStep s

/-! ## Observation helpers: reading a state back -/

/-- The value of the counter child `key` of family `fq`, if both exist. -/
def counterVal (st : ClientState) (fq : String) (key : List String) : Option ℚ :=
  (findA st.counter fq).bind (fun v => findA v.series key)

/-- The label-key schema of counter family `fq`, if present. -/
def counterKeys (st : ClientState) (fq : String) : Option (List String) :=
  (findA st.counter fq).map (fun v => v.labelKeys)

/-- The observations of the histogram child `key` of family `fq`. -/
def histSeriesObs (st : ClientState) (fq : String) (key : List String) : Option (List ℚ) :=
  (findA st.histogram fq).bind (fun q => findA q.1.series key)

/-- The stored bucket boundaries of histogram family `fq`, if present. -/
def histBuckets (st : ClientState) (fq : String) : Option (List ℚ) :=
  (findA st.histogram fq).map (fun q => q.2.Buckets)

/-! ## Basic lemmas about label maps and label matching -/

theorem findA_putA {κ α : Type} [DecidableEq κ] (l : List (κ × α)) (k k' : κ) (a : α) :
    findA (putA l k a) k' = if k' = k then some a else findA l k' := by
  by_cases h : k' = k
  · subst h; simp [findA_putA_self]
  · simp [h, findA_putA_ne l k k' a h]

theorem keysA_updA {κ α : Type} [DecidableEq κ] (l : List (κ × α)) (k : κ) (f : α → α) :
    keysA (updA l k f) = keysA l := by
  induction l with
  | nil => rfl
  | cons p l ih =>
    simp only [updA, keysA, List.map_cons] at ih ⊢
    by_cases h : p.1 = k <;> simp [h, ih]

theorem keysA_putA_nodup {κ α : Type} [DecidableEq κ] (l : List (κ × α)) (k : κ) (a : α)
    (h : (keysA l).Nodup) : (keysA (putA l k a)).Nodup := by
  unfold putA
  by_cases hs : (findA l k).isSome = true
  · simp only [hs, if_true]
    simpa [keysA_updA] using h
  · have hk : k ∉ keysA l := fun hmem =>
      hs ((findA_isSome_iff_mem l k).mpr hmem)
    simp only [hs, if_false, Bool.false_eq_true]
    have : keysA (l ++ [(k, a)]) = keysA l ++ [k] := by simp [keysA]
    rw [this]
    simpa [List.nodup_append] using ⟨h, hk⟩

theorem keysA_applyKVs_nodup (m : LabelMap) (ps : List (String × String))
    (h : (keysA m).Nodup) : (keysA (applyKVs m ps)).Nodup := by
  induction ps generalizing m with
  | nil => exact h
  | cons p ps ih =>
    exact ih (putA m p.1 p.2) (keysA_putA_nodup m p.1 p.2 h)

theorem keysA_mergedTags_nodup (ctx : GoContext) (kvs : List String)
    (h : (keysA (ctxGetLabels ctx)).Nodup) : (keysA (mergedTags ctx kvs)).Nodup :=
  keysA_applyKVs_nodup (ctxGetLabels ctx) (rangeKV kvs) h

/-- A call whose label keys are the merged map's own key list always resolves:
this is why a family's very first observation is always recorded. -/
theorem labelsMatch_keysA (tg : LabelMap) : labelsMatch (keysA tg) tg = true := by
  unfold labelsMatch
  apply Bool.and_eq_true_iff.mpr
  constructor
  · simp [keysA]
  · rw [List.all_eq_true]
    intro k hk
    simpa using (findA_isSome_iff_mem tg k).mpr (by simpa [keysA] using hk)

/-- `GetMetricWith` succeeds exactly when the observation's key set equals the
family's fixed key set as an unordered set (both key lists being free of
duplicates, which all reachable states satisfy). -/
theorem labelsMatch_iff_memEq (keys : List String) (tg : LabelMap)
    (hk : keys.Nodup) (ht : (keysA tg).Nodup) :
    labelsMatch keys tg = true ↔ (∀ k, k ∈ keysA tg ↔ k ∈ keys) := by
  constructor
  · intro h
    rcases Bool.and_eq_true_iff.mp h with ⟨hlen, hall⟩
    have hlen' : tg.length = keys.length := by simpa using hlen
    have hsub : keys ⊆ keysA tg := by
      intro k hkm
      have := (List.all_eq_true).mp hall k hkm
      exact (findA_isSome_iff_mem tg k).mp (by simpa using this)
    have hsp : keys.Subperm (keysA tg) := List.subperm_of_subset hk hsub
    have hlen2 : (keysA tg).length ≤ keys.length := by
      simp [keysA, List.length_map, hlen'.symm]
    have hperm : keys.Perm (keysA tg) := hsp.perm_of_length_le hlen2
    intro k
    exact (hperm.mem_iff).symm
  · intro h
    have hsub1 : keys ⊆ keysA tg := fun k hkm => (h k).mpr hkm
    have hsub2 : keysA tg ⊆ keys := fun k hkm => (h k).mp hkm
    have hperm : keys.Perm (keysA tg) :=
      (List.subperm_of_subset hk hsub1).antisymm (List.subperm_of_subset ht hsub2)
    apply Bool.and_eq_true_iff.mpr
    constructor
    · have : (keysA tg).length = keys.length := hperm.length_eq.symm
      simp [keysA] at this
      simp [this]
    · rw [List.all_eq_true]
      intro k hkm
      simpa using (findA_isSome_iff_mem tg k).mpr (hsub1 hkm)

/-! ## Characterizations of the instrumentation operations -/

/-- The last value a pair list binds to `k` (later pairs overwrite earlier
ones): the merge semantics the spec assigns to `kvs`. -/
def lastPairVal : List (String × String) → String → Option String
  | [], _ => none
  | p :: rest, k =>
      match lastPairVal rest k with
      | some v => some v
      | none => if p.1 = k then some p.2 else none

theorem findA_applyKVs (ps : List (String × String)) (m : LabelMap) (k : String) :
    findA (applyKVs m ps) k =
      match lastPairVal ps k with
      | some v => some v
      | none => findA m k := by
  induction ps generalizing m with
  | nil => simp [applyKVs, lastPairVal]
  | cons p ps ih =>
    show findA (applyKVs (putA m p.1 p.2) ps) k = _
    rw [ih]
    cases hl : lastPairVal ps k with
    | some v => simp [lastPairVal, hl]
    | none =>
      simp only [lastPairVal, hl, findA_putA]
      by_cases hk : k = p.1
      · subst hk; simp
      · have : ¬(p.1 = k) := fun hh => hk hh.symm
        simp [hk, this]

theorem registryRegister_fresh (reg : List RegEntry) (e : RegEntry)
    (h : reg.any (fun x => x.name == e.name) = false) :
    registryRegister reg e = (reg ++ [e], none) := by
  have hc : ¬(reg.contains e = true) := by
    intro hco
    have hmem : e ∈ reg := by simpa using hco
    have hany : reg.any (fun x => x.name == e.name) = true := by
      rw [List.any_eq_true]
      exact ⟨e, hmem, by simp⟩
    rw [h] at hany
    exact Bool.false_ne_true hany
  have h2 : ¬(reg.any (fun x => x.name == e.name) = true) := by
    rw [h]; exact Bool.false_ne_true
  unfold registryRegister
  rw [if_neg hc, if_neg h2]

theorem registryRegister_conflict (reg : List RegEntry) (e : RegEntry)
    (h : reg.any (fun x => x.name == e.name) = true) :
    ∃ err, registryRegister reg e = (reg, some err) := by
  unfold registryRegister
  by_cases hc : reg.contains e = true
  · exact ⟨RegError.alreadyRegistered, by rw [if_pos hc]⟩
  · exact ⟨RegError.inconsistent, by rw [if_neg hc, if_pos h]⟩

theorem clientRegister_fresh (st : ClientState) (e : RegEntry) (kind : String)
    (h : st.registry.any (fun x => x.name == e.name) = false) :
    clientRegister st e kind = { st with registry := st.registry ++ [e] } := by
  unfold clientRegister
  rw [registryRegister_fresh st.registry e h]

theorem clientRegister_conflict (st : ClientState) (e : RegEntry) (kind : String)
    (h : st.registry.any (fun x => x.name == e.name) = true) :
    ∃ ek, (ek = kind ++ "_dup" ∨ ek = kind) ∧
      clientRegister st e kind =
        { st with logs := st.logs ++ [ek], errs := st.errs ++ [(e.name, ek)] } := by
  rcases registryRegister_conflict st.registry e h with ⟨err, herr⟩
  refine ⟨kind ++ (if err = RegError.alreadyRegistered then "_dup" else ""), ?_, ?_⟩
  · cases err
    · left; simp
    · right; simp
  · unfold clientRegister
    rw [herr]


/-- The state change of a successful `Counter.Add` on family `fq`. -/
def bumpCounter (st : ClientState) (fq : String) (key : List String) (value : ℚ) : ClientState :=
  { st with counter := updA st.counter fq (fun w => counterAdd w key value) }

/-- The state change of a successful `Histogram.Observe` on family `fq`. -/
def bumpHist (st : ClientState) (fq : String) (key : List String) (value : ℚ) : ClientState :=
  { st with histogram := updA st.histogram fq (fun q => (histObserve q.1 key value, q.2)) }

/-- The state change of a dropped observation: error counted, event logged. -/
def dropWith (st : ClientState) (fq kind log : String) : ClientState :=
  { st with errs := st.errs ++ [(fq, kind)], logs := st.logs ++ [log] }

/-- Append a brand-new counter family to the cache (`LoadOrStore`, miss). -/
def storeCounter (st : ClientState) (fq : String) (keys : List String) : ClientState :=
  { st with counter := st.counter ++ [(fq, ⟨keys, []⟩)] }

/-- Append a brand-new histogram family to the cache (`LoadOrStore`, miss). -/
def storeHist (st : ClientState) (fq : String) (keys : List String) (o : HistogramOpts) :
    ClientState :=
  { st with histogram := st.histogram ++ [(fq, (⟨keys, []⟩, o))] }

theorem RecordN_present_match (c : ClientCfg) (st : ClientState) (ctx : GoContext)
    (name desc : String) (value : ℚ) (kvs : List String) (v : CounterVec)
    (hv : findA st.counter (buildFQName c name c.names.Counter) = some v)
    (hm : labelsMatch v.labelKeys (mergedTags ctx kvs) = true) :
    RecordN c st ctx name desc value kvs =
      bumpCounter st (buildFQName c name c.names.Counter)
        (seriesKey v.labelKeys (mergedTags ctx kvs)) value := by
  simp only [RecordN, getCounter, tags, hv, hm, bumpCounter, if_true]

theorem RecordN_present_mismatch (c : ClientCfg) (st : ClientState) (ctx : GoContext)
    (name desc : String) (value : ℚ) (kvs : List String) (v : CounterVec)
    (hv : findA st.counter (buildFQName c name c.names.Counter) = some v)
    (hm : labelsMatch v.labelKeys (mergedTags ctx kvs) = false) :
    RecordN c st ctx name desc value kvs =
      dropWith st (buildFQName c name c.names.Counter)
        "get_counter" "get_counter|GetMetricWithLabelFailed" := by
  simp only [RecordN, getCounter, tags, hv, hm, dropWith, Bool.false_eq_true, if_false]

theorem RecordN_absent (c : ClientCfg) (st : ClientState) (ctx : GoContext)
    (name desc : String) (value : ℚ) (kvs : List String)
    (hv : findA st.counter (buildFQName c name c.names.Counter) = none) :
    RecordN c st ctx name desc value kvs =
      bumpCounter
        (clientRegister
          (storeCounter st (buildFQName c name c.names.Counter) (keysA (mergedTags ctx kvs)))
          ⟨buildFQName c name c.names.Counter, keysA (mergedTags ctx kvs), desc⟩
          "register_counter")
        (buildFQName c name c.names.Counter)
        (seriesKey (keysA (mergedTags ctx kvs)) (mergedTags ctx kvs)) value := by
  simp only [RecordN, getCounter, tags, hv, labelsMatch_keysA, bumpCounter, storeCounter, if_true]

theorem recordHistogram_present_drift_match (c : ClientCfg) (st : ClientState) (ctx : GoContext)
    (fq help : String) (value : ℚ) (buckets : List ℚ) (kvs : List String)
    (w : HistogramVec) (o : HistogramOpts)
    (hv : findA st.histogram fq = some (w, o))
    (hdiff : ¬(o.Buckets = buckets))
    (hm : labelsMatch w.labelKeys (mergedTags ctx kvs) = true) :
    recordHistogram c st ctx fq help value buckets kvs =
      bumpHist (dropWith st fq "histogram_buckets_mismatch" "histogram_buckets_mismatch")
        fq (seriesKey w.labelKeys (mergedTags ctx kvs)) value := by
  simp only [recordHistogram, getHistogram, tags, hv, hdiff, hm, bumpHist, dropWith,
    if_false, if_true]

theorem recordHistogram_absent (c : ClientCfg) (st : ClientState) (ctx : GoContext)
    (fq help : String) (value : ℚ) (buckets : List ℚ) (kvs : List String)
    (hv : findA st.histogram fq = none) :
    recordHistogram c st ctx fq help value buckets kvs =
      bumpHist
        (clientRegister (storeHist st fq (keysA (mergedTags ctx kvs)) ⟨fq, help, buckets⟩)
          ⟨fq, keysA (mergedTags ctx kvs), help⟩ "register_histogram")
        fq (seriesKey (keysA (mergedTags ctx kvs)) (mergedTags ctx kvs)) value := by
  simp only [recordHistogram, getHistogram, tags, hv, labelsMatch_keysA, bumpHist, storeHist,
    if_true]

/-- `clientRegister` never touches the caches. -/
theorem clientRegister_counter (st : ClientState) (e : RegEntry) (kind : String) :
    (clientRegister st e kind).counter = st.counter := by
  unfold clientRegister
  cases h : registryRegister st.registry e with
  | mk reg err => cases err <;> rfl

theorem clientRegister_histogram (st : ClientState) (e : RegEntry) (kind : String) :
    (clientRegister st e kind).histogram = st.histogram := by
  unfold clientRegister
  cases h : registryRegister st.registry e with
  | mk reg err => cases err <;> rfl

/-! ## The race invariant -/

/-- Invariant of the first-use race, preserved by every atomic step:
the winner flag points back at the cache slot; the slot's owner has started;
before anyone starts, the slot is empty; the registration count is 1 exactly
when the owner has passed its register step; the observation count equals the
number of finished callers. -/
def RaceInv {n : ℕ} (s : RaceState n) : Prop :=
  (∀ i, s.winner i = true → s.owner = some i) ∧
  (∀ i, s.owner = some i → s.winner i = true ∧ s.pc i ≠ 0) ∧
  (s.owner = none → ∀ i, s.pc i = 0) ∧
  (s.regCount = (match s.owner with
     | none => 0
     | some w => if 2 ≤ s.pc w then 1 else 0)) ∧
  (s.obs = (Finset.univ.filter (fun i => s.pc i = 3)).card)

theorem raceInv_init (n : ℕ) : RaceInv (raceInit n) := by
  refine ⟨?_, ?_, ?_, ?_, ?_⟩
  · intro i h; simp [raceInit] at h
  · intro i h; simp [raceInit] at h
  · intro _ i; rfl
  · rfl
  · simp [raceInit]

theorem filter_update_card_eq {n : ℕ} (pc : Fin n → ℕ) (i : Fin n) (vold vnew : ℕ)
    (hold : pc i = vold) (h1 : vold ≠ 3) (h2 : vnew ≠ 3) :
    (Finset.univ.filter (fun j => Function.update pc i vnew j = 3)).card =
      (Finset.univ.filter (fun j => pc j = 3)).card := by
  congr 1
  apply Finset.filter_congr
  intro j _
  by_cases hj : j = i
  · subst hj; simp [Function.update, hold, h1, h2]
  · simp [Function.update, hj]

theorem filter_update_card_succ {n : ℕ} (pc : Fin n → ℕ) (i : Fin n)
    (hold : pc i ≠ 3) :
    (Finset.univ.filter (fun j => Function.update pc i 3 j = 3)).card =
      (Finset.univ.filter (fun j => pc j = 3)).card + 1 := by
  have hset : (Finset.univ.filter (fun j => Function.update pc i 3 j = 3)) =
      insert i (Finset.univ.filter (fun j => pc j = 3)) := by
    ext j
    by_cases hj : j = i
    · subst hj; simp [Function.update]
    · simp [Function.update, hj]
  rw [hset, Finset.card_insert_of_not_mem (by simp [hold])]

theorem raceInv_step {n : ℕ} (s : RaceState n) (i : Fin n) (h : RaceInv s) :
    RaceInv (raceStep s i) := by
  obtain ⟨h1, h2, h3, h4, h5⟩ := h
  unfold raceStep
  by_cases hp0 : s.pc i = 0
  · rw [if_pos hp0]
    cases how : s.owner with
    | none =>
      refine ⟨?_, ?_, ?_, ?_, ?_⟩
      · intro j hw
        change Function.update s.winner i true j = true at hw
        change some i = some j
        by_cases hj : j = i
        · rw [hj]
        · rw [Function.update_noteq hj] at hw
          have := h1 j hw
          rw [how] at this
          exact absurd this (by simp)
      · intro j hj
        change some i = some j at hj
        injection hj with hj
        subst hj
        constructor
        · change Function.update s.winner i true i = true
          rw [Function.update_same]
        · change Function.update s.pc i 1 i ≠ 0
          rw [Function.update_same]
          exact one_ne_zero
      · intro hc
        change some i = none at hc
        exact absurd hc (by simp)
      · have h40 : s.regCount = 0 := by rw [how] at h4; exact h4
        change s.regCount = if 2 ≤ Function.update s.pc i 1 i then 1 else 0
        rw [Function.update_same, h40]
        decide
      · change s.obs = (Finset.univ.filter (fun j => Function.update s.pc i 1 j = 3)).card
        rw [h5, filter_update_card_eq s.pc i 0 1 hp0 (by decide) (by decide)]
    | some j =>
      have hji : j ≠ i := fun hc => (h2 j how).2 (hc ▸ hp0)
      refine ⟨?_, ?_, ?_, ?_, ?_⟩
      · intro m hw
        change Function.update s.winner i false m = true at hw
        change some j = some m
        by_cases hm : m = i
        · subst hm
          rw [Function.update_same] at hw
          exact absurd hw (by simp)
        · rw [Function.update_noteq hm] at hw
          rw [← how]
          exact h1 m hw
      · intro m hm
        change some j = some m at hm
        injection hm with hjm
        have hsm : s.owner = some m := by rw [how, hjm]
        have hmain := h2 m hsm
        have hmi : m ≠ i := fun hc => hji (hjm.trans hc)
        constructor
        · change Function.update s.winner i false m = true
          rw [Function.update_noteq hmi]
          exact hmain.1
        · change Function.update s.pc i 1 m ≠ 0
          rw [Function.update_noteq hmi]
          exact hmain.2
      · intro hc
        change some j = none at hc
        exact absurd hc (by simp)
      · change s.regCount = if 2 ≤ Function.update s.pc i 1 j then 1 else 0
        rw [Function.update_noteq hji]
        rw [how] at h4
        exact h4
      · change s.obs = (Finset.univ.filter (fun m => Function.update s.pc i 1 m = 3)).card
        rw [h5, filter_update_card_eq s.pc i 0 1 hp0 (by decide) (by decide)]
  · rw [if_neg hp0]
    by_cases hp1 : s.pc i = 1
    · rw [if_pos hp1]
      refine ⟨h1, ?_, ?_, ?_, ?_⟩
      · intro m hm
        change s.owner = some m at hm
        have hmain := h2 m hm
        refine ⟨hmain.1, ?_⟩
        change Function.update s.pc i 2 m ≠ 0
        by_cases hmi : m = i
        · subst hmi
          rw [Function.update_same]
          exact two_ne_zero
        · rw [Function.update_noteq hmi]
          exact hmain.2
      · intro hc
        change s.owner = none at hc
        exact absurd (h3 hc i) hp0
      · cases how : s.owner with
        | none => exact absurd (h3 how i) hp0
        | some w =>
          rw [how] at h4
          by_cases hwi : w = i
          · subst hwi
            have hwt : s.winner w = true := (h2 w how).1
            have h40 : s.regCount = 0 := by simpa [hp1] using h4
            change (if s.winner w = true then s.regCount + 1 else s.regCount) =
              if 2 ≤ Function.update s.pc w 2 w then 1 else 0
            rw [hwt, if_pos rfl, Function.update_same, h40]
            decide
          · have hwn : s.winner i = false := by
              cases hwc : s.winner i
              · rfl
              · have := h1 i hwc
                rw [how] at this
                injection this with hEq
                exact absurd hEq hwi
            change (if s.winner i = true then s.regCount + 1 else s.regCount) =
              if 2 ≤ Function.update s.pc i 2 w then 1 else 0
            rw [hwn, Function.update_noteq hwi]
            simpa using h4
      · change s.obs = (Finset.univ.filter (fun m => Function.update s.pc i 2 m = 3)).card
        rw [h5, filter_update_card_eq s.pc i 1 2 hp1 (by decide) (by decide)]
    · rw [if_neg hp1]
      by_cases hp2 : s.pc i = 2
      · rw [if_pos hp2]
        refine ⟨h1, ?_, ?_, ?_, ?_⟩
        · intro m hm
          change s.owner = some m at hm
          have hmain := h2 m hm
          refine ⟨hmain.1, ?_⟩
          change Function.update s.pc i 3 m ≠ 0
          by_cases hmi : m = i
          · subst hmi
            rw [Function.update_same]
            exact three_ne_zero
          · rw [Function.update_noteq hmi]
            exact hmain.2
        · intro hc
          change s.owner = none at hc
          exact absurd (h3 hc i) hp0
        · cases how : s.owner with
          | none => exact absurd (h3 how i) hp0
          | some w =>
            rw [how] at h4
            by_cases hwi : w = i
            · subst hwi
              have h41 : s.regCount = 1 := by simpa [hp2] using h4
              change s.regCount = if 2 ≤ Function.update s.pc w 3 w then 1 else 0
              rw [Function.update_same, h41]
              decide
            · change s.regCount = if 2 ≤ Function.update s.pc i 3 w then 1 else 0
              rw [Function.update_noteq hwi]
              simpa using h4
        · change s.obs + 1 = (Finset.univ.filter (fun m => Function.update s.pc i 3 m = 3)).card
          rw [filter_update_card_succ s.pc i (by rw [hp2]; decide), h5]
      · rw [if_neg hp2]
        exact ⟨h1, h2, h3, h4, h5⟩

theorem raceInv_run {n : ℕ} (s : RaceState n) (sched : List (Fin n)) (h : RaceInv s) :
    RaceInv (raceRun s sched) := by
  induction sched generalizing s with
  | nil => exact h
  | cons i rest ih => exact ih (raceStep s i) (raceInv_step s i h)

theorem updA_append {κ α : Type} [DecidableEq κ] (l l' : List (κ × α)) (k : κ) (f : α → α) :
    updA (l ++ l') k f = updA l k f ++ updA l' k f := List.map_append _ l l'

theorem updA_of_findA_none {κ α : Type} [DecidableEq κ] (l : List (κ × α)) (k : κ) (f : α → α)
    (h : findA l k = none) : updA l k f = l := by
  induction l with
  | nil => rfl
  | cons p l ih =>
    unfold findA at h
    by_cases hp : p.1 = k
    · rw [if_pos hp] at h; exact absurd h (by simp)
    · rw [if_neg hp] at h
      simp only [updA, List.map_cons, if_neg hp]
      have hl := ih h
      simp only [updA] at hl
      rw [hl]

/-- The complete effect of a first-use `RecordN` when the registry accepts:
candidate family stored and registered, observation recorded into it. -/
theorem RecordN_fresh_state (c : ClientCfg) (st : ClientState) (ctx : GoContext)
    (name desc : String) (value : ℚ) (kvs : List String)
    (hnone : findA st.counter (buildFQName c name c.names.Counter) = none)
    (hreg : st.registry.any (fun x => x.name == buildFQName c name c.names.Counter) = false) :
    RecordN c st ctx name desc value kvs =
      { st with
          counter := st.counter ++
            [(buildFQName c name c.names.Counter,
              counterAdd ⟨keysA (mergedTags ctx kvs), []⟩
                (seriesKey (keysA (mergedTags ctx kvs)) (mergedTags ctx kvs)) value)]
          registry := st.registry ++
            [⟨buildFQName c name c.names.Counter, keysA (mergedTags ctx kvs), desc⟩] } := by
  rw [RecordN_absent c st ctx name desc value kvs hnone]
  rw [clientRegister_fresh _ _ _ hreg]
  unfold bumpCounter storeCounter
  simp only
  congr 1
  rw [updA_append, updA_of_findA_none _ _ _ hnone]
  simp [updA]

/-- The complete effect of a first-use `RecordN` when the registry already
holds the name (registered by an independent caller): the candidate family is
kept and receives the observation, the registry is unchanged, and a
registration-conflict error is counted and logged. -/
theorem RecordN_conflict_state (c : ClientCfg) (st : ClientState) (ctx : GoContext)
    (name desc : String) (value : ℚ) (kvs : List String)
    (hnone : findA st.counter (buildFQName c name c.names.Counter) = none)
    (hconf : st.registry.any (fun x => x.name == buildFQName c name c.names.Counter) = true) :
    ∃ ek, (ek = "register_counter_dup" ∨ ek = "register_counter") ∧
      RecordN c st ctx name desc value kvs =
        { st with
            counter := st.counter ++
              [(buildFQName c name c.names.Counter,
                counterAdd ⟨keysA (mergedTags ctx kvs), []⟩
                  (seriesKey (keysA (mergedTags ctx kvs)) (mergedTags ctx kvs)) value)]
            errs := st.errs ++ [(buildFQName c name c.names.Counter, ek)]
            logs := st.logs ++ [ek] } := by
  rw [RecordN_absent c st ctx name desc value kvs hnone]
  rcases clientRegister_conflict
      (storeCounter st (buildFQName c name c.names.Counter) (keysA (mergedTags ctx kvs)))
      ⟨buildFQName c name c.names.Counter, keysA (mergedTags ctx kvs), desc⟩
      "register_counter" hconf with ⟨ek, hek, hcr⟩
  refine ⟨ek, hek, ?_⟩
  rw [hcr]
  unfold bumpCounter storeCounter
  simp only
  congr 1
  rw [updA_append, updA_of_findA_none _ _ _ hnone]
  simp [updA]

/-- The complete effect of a first-use histogram observation when the
registry accepts: family stored under the requested opts and registered,
observation recorded. -/
theorem recordHistogram_fresh_state (c : ClientCfg) (st : ClientState) (ctx : GoContext)
    (fq help : String) (value : ℚ) (buckets : List ℚ) (kvs : List String)
    (hnone : findA st.histogram fq = none)
    (hreg : st.registry.any (fun x => x.name == fq) = false) :
    recordHistogram c st ctx fq help value buckets kvs =
      { st with
          histogram := st.histogram ++
            [(fq, (histObserve ⟨keysA (mergedTags ctx kvs), []⟩
                    (seriesKey (keysA (mergedTags ctx kvs)) (mergedTags ctx kvs)) value,
                   ⟨fq, help, buckets⟩))]
          registry := st.registry ++ [⟨fq, keysA (mergedTags ctx kvs), help⟩] } := by
  rw [recordHistogram_absent c st ctx fq help value buckets kvs hnone]
  rw [clientRegister_fresh _ _ _ hreg]
  unfold bumpHist storeHist
  simp only
  congr 1
  rw [updA_append, updA_of_findA_none _ _ _ hnone]
  simp [updA]

/-! ## The spec's safe-name pattern (for claim C9) -/

/-- The character class `[A-Za-z_:]` of the spec's safe pattern. -/
def safeStart (c : Char) : Bool :=
  ('A' ≤ c && c ≤ 'Z') || ('a' ≤ c && c ≤ 'z') || c = '_' || c = ':'

/-- The character class `[A-Za-z0-9_:]` of the spec's safe pattern. -/
def safeCont (c : Char) : Bool := safeStart c || ('0' ≤ c && c ≤ '9')

/-- Matching `^[A-Za-z_:][A-Za-z0-9_:]*$`: nonempty, a start character, then
continuation characters. -/
def safePattern (s : String) : Bool :=
  match s.data with
  | [] => false
  | c :: rest => safeStart c && rest.all safeCont

theorem isValidLegacyRune_zero (c : Char) : isValidLegacyRune c 0 = safeStart c := by
  unfold isValidLegacyRune safeStart
  cases h1 : ('a' ≤ c && c ≤ 'z') <;> cases h2 : ('A' ≤ c && c ≤ 'Z') <;> simp [h1, h2]

theorem isValidLegacyRune_one (c : Char) : isValidLegacyRune c 1 = safeCont c := by
  unfold isValidLegacyRune safeCont safeStart
  cases h1 : ('a' ≤ c && c ≤ 'z') <;> cases h2 : ('A' ≤ c && c ≤ 'Z') <;>
    cases h3 : ('0' ≤ c && c ≤ '9') <;> simp [h1, h2, h3]

theorem safePattern_valid (s : String) (h : safePattern s = true) :
    isValidLegacyName s = true := by
  unfold safePattern at h
  unfold isValidLegacyName
  cases hd : s.data with
  | nil => rw [hd] at h; exact absurd h (by decide)
  | cons c rest =>
    rw [hd] at h
    rcases Bool.and_eq_true_iff.mp h with ⟨hc, hrest⟩
    apply Bool.and_eq_true_iff.mpr
    refine ⟨by rw [isValidLegacyRune_zero]; exact hc, ?_⟩
    rw [List.all_eq_true] at hrest ⊢
    intro d hdm
    rw [isValidLegacyRune_one]
    exact hrest d hdm

theorem escapeName_safe (s : String) (h : safePattern s = true) : EscapeName s = s := by
  unfold EscapeName
  have hne : ¬(s.data = []) := by
    intro hd
    unfold safePattern at h
    rw [hd] at h
    exact absurd h (by decide)
  rw [if_neg hne, if_pos (safePattern_valid s h)]

/-- C9: `EscapeName` is the identity on every string matching
`^[A-Za-z_:][A-Za-z0-9_:]*$` (hence idempotent on safe strings), and maps the
six literal vectors of the spec (which are also the repository's
`TestEscapeName` cases) to their expected outputs. -/
theorem C9_escape_identity_and_vectors :
    (∀ s, safePattern s = true → EscapeName s = s) ∧
    (∀ s, safePattern s = true → EscapeName (EscapeName s) = EscapeName s) ∧
    EscapeName "" = "" ∧
    EscapeName "abc" = "abc" ∧
    EscapeName "a_b:c" = "a_b:c" ∧
    EscapeName "0a_b:c" = "U___30_a_b:c" ∧
    EscapeName "abc 中文" = "U__abc_20__4e2d__6587_" ∧
    EscapeName "总量" = "U___603b__91cf_" := by
  refine ⟨fun s h => escapeName_safe s h,
    fun s h => by rw [escapeName_safe s h, escapeName_safe s h],
    ?_, ?_, ?_, ?_, ?_, ?_⟩ <;> decide

/-- C9 witness: the identity theorem applied at the concrete safe string
`"abc"`. -/
theorem C9_escape_identity_witness :
    safePattern "abc" = true ∧ EscapeName "abc" = "abc" :=
  ⟨by decide, C9_escape_identity_and_vectors.1 "abc" (by decide)⟩

/-- C5: the fully-qualified name is the colon-join of the non-empty members
of `[namespace, subsystem, prefix + escape(raw) + suffix]` (the spec's
formula restated by `specFQName`), and a client with namespace `ns`,
subsystem `sub` and default appends maps counter raw name `reqs` to
`ns:sub:counter:reqs`. -/
theorem C5_fqname :
    (∀ (c : ClientCfg) (raw : String) (na : NameAppend),
        buildFQName c raw na = specFQName c raw na) ∧
    buildFQName (mkClient "ns" "sub") "reqs" (mkClient "ns" "sub").names.Counter =
      "ns:sub:counter:reqs" := by
  refine ⟨fun c raw na => rfl, ?_⟩
  decide

/-- C6: merging labels into a context applies the call's pairs in order on a
clone of the attached map — a key reads as the last pair value bound to it,
else as the original context's binding; consecutive elements pair up and an
unpaired trailing element is discarded (`rangeKV`); re-binding a key
overwrites (the P4 instance reads `v2`). The original context is a value the
embedding never mutates. -/
theorem C6_ctx_add_labels :
    (∀ (ctx : GoContext) (kvs : List String) (k : String),
        findA (CtxGetLabels (CtxAddLabels ctx kvs)) k =
          (match lastPairVal (rangeKV kvs) k with
           | some v => some v
           | none => findA (CtxGetLabels ctx) k)) ∧
    rangeKV ["k1", "v2", "k2"] = [("k1", "v2")] ∧
    CtxGetLabels (CtxAddLabels ⟨none⟩ ["k1", "v2", "k2"]) = [("k1", "v2")] ∧
    findA (CtxGetLabels (CtxAddLabels (CtxAddLabels ⟨none⟩ ["k1", "v1"]) ["k1", "v2"])) "k1" =
      some "v2" := by
  refine ⟨fun ctx kvs k => findA_applyKVs (rangeKV kvs) (CtxGetLabels ctx) k, ?_, ?_, ?_⟩
    <;> decide

/-- C4 evidence: `recordErr` does **not** accumulate. It creates a fresh
`CounterVec` per call and registers the fresh child metric object; from the
second call on the registration is rejected (same descriptor) and silently
dropped, and the increment lands on the fresh, unregistered object. After two
`recordErr("n","k")` calls on a new client the registered `(n,k)` series
reports 1, not 2 as the claim states. -/
theorem C4_errsink_no_accumulation :
    registeredErrSeries
        (recordErr (mkClient "" "") (recordErr (mkClient "" "") errInit "n" "k") "n" "k")
        "n" "k" = some 1 ∧
    registeredErrSeries
        (recordErr (mkClient "" "") (recordErr (mkClient "" "") errInit "n" "k") "n" "k")
        "n" "k" ≠ some 2 := by
  constructor <;>
    norm_num [registeredErrSeries, recordErr, errInit, buildFQName, mkClient, defaultNames,
      EscapeName, isValidLegacyName, isValidLegacyRune, updA, findA]

/-- C2: an observation call on an existing counter family whose merged
label-key set differs, **as an unordered set**, from the key set fixed at the
family's first use records no value: the only state change is one
internal-error count `(name, "get_counter")` and one logger event — nothing
is returned to the caller (the operation is total). A call whose merged key
set equals the fixed set (any values) is recorded. Key lists are
duplicate-free in every reachable state, which the two `Nodup` hypotheses
express. -/
theorem C2_label_schema_drop (c : ClientCfg) (st : ClientState) (ctx : GoContext)
    (name desc : String) (value : ℚ) (kvs : List String) (v : CounterVec)
    (hv : findA st.counter (buildFQName c name c.names.Counter) = some v)
    (hnk : v.labelKeys.Nodup)
    (hnc : (keysA (ctxGetLabels ctx)).Nodup) :
    (¬(∀ k, k ∈ keysA (mergedTags ctx kvs) ↔ k ∈ v.labelKeys) →
        RecordN c st ctx name desc value kvs =
          dropWith st (buildFQName c name c.names.Counter)
            "get_counter" "get_counter|GetMetricWithLabelFailed") ∧
    ((∀ k, k ∈ keysA (mergedTags ctx kvs) ↔ k ∈ v.labelKeys) →
        RecordN c st ctx name desc value kvs =
          bumpCounter st (buildFQName c name c.names.Counter)
            (seriesKey v.labelKeys (mergedTags ctx kvs)) value) := by
  have htn : (keysA (mergedTags ctx kvs)).Nodup := keysA_mergedTags_nodup ctx kvs hnc
  constructor
  · intro hne
    have hm : labelsMatch v.labelKeys (mergedTags ctx kvs) = false := by
      cases hmc : labelsMatch v.labelKeys (mergedTags ctx kvs)
      · rfl
      · exact absurd
          ((labelsMatch_iff_memEq v.labelKeys (mergedTags ctx kvs) hnk htn).mp hmc) hne
    exact RecordN_present_mismatch c st ctx name desc value kvs v hv hm
  · intro heq
    have hm : labelsMatch v.labelKeys (mergedTags ctx kvs) = true :=
      (labelsMatch_iff_memEq v.labelKeys (mergedTags ctx kvs) hnk htn).mpr heq
    exact RecordN_present_match c st ctx name desc value kvs v hv hm

/-! ### Concrete fixtures for the witnesses -/

/-- A default client (`NewClient()` with empty namespace/subsystem). -/
def cfg0 : ClientCfg := mkClient "" ""

/-- The state after the first counter observation
`Record(ctx, "m", "d", "k1", "v1")` on a background context: the family
`counter:m` exists with schema `{k1}`. -/
def stC : ClientState := Record cfg0 emptyState ⟨none⟩ "m" "d" ["k1", "v1"]

/-- The `counter:m` family stored inside `stC`. -/
def v1 : CounterVec := ⟨["k1"], [(["v1"], 1)]⟩

theorem stC_eval : stC =
    { counter := [("counter:m", v1)], histogram := [],
      registry := [⟨"counter:m", ["k1"], "d"⟩], errs := [], logs := [] } := by
  simp [stC, cfg0, Record, RecordN, getCounter, tags, mergedTags, applyKVs, rangeKV,
    CtxGetLabels, ctxGetLabels, putA, findA, updA, keysA, labelsMatch, seriesKey, counterAdd,
    clientRegister, registryRegister, buildFQName, EscapeName, isValidLegacyName,
    isValidLegacyRune, mkClient, defaultNames, emptyState, v1]
  decide

/-- C2 witness: with the schema fixed to `{k1}`, a call supplying no labels
is dropped with a `get_counter` error, and a call supplying exactly `{k1}`
with a new value is recorded. -/
theorem C2_label_schema_drop_witness :
    findA stC.counter (buildFQName cfg0 "m" cfg0.names.Counter) = some v1 ∧
    RecordN cfg0 stC ⟨none⟩ "m" "d" 1 [] =
      dropWith stC (buildFQName cfg0 "m" cfg0.names.Counter)
        "get_counter" "get_counter|GetMetricWithLabelFailed" ∧
    RecordN cfg0 stC ⟨none⟩ "m" "d" 5 ["k1", "v2"] =
      bumpCounter stC (buildFQName cfg0 "m" cfg0.names.Counter)
        (seriesKey v1.labelKeys (mergedTags ⟨none⟩ ["k1", "v2"])) 5 := by
  have hv : findA stC.counter (buildFQName cfg0 "m" cfg0.names.Counter) = some v1 := by
    rw [stC_eval]; decide
  have hdrop := C2_label_schema_drop cfg0 stC ⟨none⟩ "m" "d" 1 [] v1 hv (by decide) (by decide)
  have hrec := C2_label_schema_drop cfg0 stC ⟨none⟩ "m" "d" 5 ["k1", "v2"] v1 hv
    (by decide) (by decide)
  refine ⟨hv, hdrop.1 ?_, hrec.2 ?_⟩
  · intro hall
    have h1 : "k1" ∈ keysA (mergedTags ⟨none⟩ ([] : List String)) :=
      (hall "k1").mpr (by decide)
    exact absurd h1 (by decide)
  · intro k
    exact Iff.rfl

/-- C10 (implicit): the schema fixed at a family's first use is the key set
of the **merged** label map — ambient context labels united with the explicit
trailing pairs — and the first observation is recorded; a later call must
reproduce exactly that merged key set: the same explicit pairs under a
context whose labels change the merged key set are dropped with a
`get_counter` error. -/
theorem C10_ambient_labels_in_schema (c : ClientCfg) (st : ClientState) (ctx : GoContext)
    (name desc : String) (value : ℚ) (kvs : List String)
    (hnone : findA st.counter (buildFQName c name c.names.Counter) = none)
    (hreg : st.registry.any (fun x => x.name == buildFQName c name c.names.Counter) = false)
    (hnc : (keysA (ctxGetLabels ctx)).Nodup) :
    counterKeys (RecordN c st ctx name desc value kvs) (buildFQName c name c.names.Counter) =
      some (keysA (mergedTags ctx kvs)) ∧
    counterVal (RecordN c st ctx name desc value kvs) (buildFQName c name c.names.Counter)
      (seriesKey (keysA (mergedTags ctx kvs)) (mergedTags ctx kvs)) = some value ∧
    (∀ (ctx' : GoContext) (value' : ℚ),
        (keysA (ctxGetLabels ctx')).Nodup →
        ¬(∀ k, k ∈ keysA (mergedTags ctx' kvs) ↔ k ∈ keysA (mergedTags ctx kvs)) →
        RecordN c (RecordN c st ctx name desc value kvs) ctx' name desc value' kvs =
          dropWith (RecordN c st ctx name desc value kvs)
            (buildFQName c name c.names.Counter)
            "get_counter" "get_counter|GetMetricWithLabelFailed") := by
  refine ⟨?_, ?_, ?_⟩
  · rw [RecordN_fresh_state c st ctx name desc value kvs hnone hreg]
    simp [counterKeys, findA_append, hnone, findA, counterAdd]
  · rw [RecordN_fresh_state c st ctx name desc value kvs hnone hreg]
    simp [counterVal, findA_append, hnone, findA, counterAdd, putA, seriesKey]
  · intro ctx' value' hnc' hne
    have hv2 : findA (RecordN c st ctx name desc value kvs).counter
        (buildFQName c name c.names.Counter) =
        some (counterAdd ⟨keysA (mergedTags ctx kvs), []⟩
          (seriesKey (keysA (mergedTags ctx kvs)) (mergedTags ctx kvs)) value) := by
      rw [RecordN_fresh_state c st ctx name desc value kvs hnone hreg]
      simp [findA_append, hnone, findA]
    have hm : labelsMatch (keysA (mergedTags ctx kvs)) (mergedTags ctx' kvs) = false := by
      cases hmc : labelsMatch (keysA (mergedTags ctx kvs)) (mergedTags ctx' kvs)
      · rfl
      · exact absurd
          ((labelsMatch_iff_memEq (keysA (mergedTags ctx kvs)) (mergedTags ctx' kvs)
            (keysA_mergedTags_nodup ctx kvs hnc)
            (keysA_mergedTags_nodup ctx' kvs hnc')).mp hmc) hne
    exact RecordN_present_mismatch c _ ctx' name desc value' kvs _ hv2 hm

/-- C10 witness: first use with context label `k` plus explicit pair `x`
fixes the schema to `{k, x}` and is recorded; the same explicit pair under a
label-free context is dropped. -/
theorem C10_ambient_labels_in_schema_witness :
    counterKeys (RecordN cfg0 emptyState (CtxAddLabels ⟨none⟩ ["k", "v"]) "m" "d" 2 ["x", "y"])
      (buildFQName cfg0 "m" cfg0.names.Counter) =
      some (keysA (mergedTags (CtxAddLabels ⟨none⟩ ["k", "v"]) ["x", "y"])) ∧
    RecordN cfg0
        (RecordN cfg0 emptyState (CtxAddLabels ⟨none⟩ ["k", "v"]) "m" "d" 2 ["x", "y"])
        ⟨none⟩ "m" "d" 3 ["x", "y"] =
      dropWith (RecordN cfg0 emptyState (CtxAddLabels ⟨none⟩ ["k", "v"]) "m" "d" 2 ["x", "y"])
        (buildFQName cfg0 "m" cfg0.names.Counter)
        "get_counter" "get_counter|GetMetricWithLabelFailed" := by
  have h := C10_ambient_labels_in_schema cfg0 emptyState (CtxAddLabels ⟨none⟩ ["k", "v"])
    "m" "d" 2 ["x", "y"] (by decide) (by decide) (by decide)
  refine ⟨h.1, h.2.2 ⟨none⟩ 3 (by decide) ?_⟩
  intro hall
  have h1 : "k" ∈ keysA (mergedTags (⟨none⟩ : GoContext) ["x", "y"]) :=
    (hall "k").mpr (by decide)
  exact absurd h1 (by decide)

/-- C7: when the cache has no family for the name but the shared registry
already holds the name (registered by an independent caller), the first-use
observation reports a registration-conflict error (`register_counter`, with
`_dup` appended when the registry error is `AlreadyRegisteredError`) to the
ErrorSink and the logger, leaves the registry unchanged, keeps the cache's
own candidate family, records the observation into it, and surfaces no
failure to the caller (the operation is total and the observation lands). -/
theorem C7_registration_conflict (c : ClientCfg) (st : ClientState) (ctx : GoContext)
    (name desc : String) (value : ℚ) (kvs : List String)
    (hnone : findA st.counter (buildFQName c name c.names.Counter) = none)
    (hconf : st.registry.any (fun x => x.name == buildFQName c name c.names.Counter) = true) :
    ∃ ek, (ek = "register_counter_dup" ∨ ek = "register_counter") ∧
      (RecordN c st ctx name desc value kvs).errs =
        st.errs ++ [(buildFQName c name c.names.Counter, ek)] ∧
      (RecordN c st ctx name desc value kvs).logs = st.logs ++ [ek] ∧
      (RecordN c st ctx name desc value kvs).registry = st.registry ∧
      counterKeys (RecordN c st ctx name desc value kvs) (buildFQName c name c.names.Counter) =
        some (keysA (mergedTags ctx kvs)) ∧
      counterVal (RecordN c st ctx name desc value kvs) (buildFQName c name c.names.Counter)
        (seriesKey (keysA (mergedTags ctx kvs)) (mergedTags ctx kvs)) = some value := by
  rcases RecordN_conflict_state c st ctx name desc value kvs hnone hconf with ⟨ek, hek, hst⟩
  refine ⟨ek, hek, ?_, ?_, ?_, ?_, ?_⟩
  · rw [hst]
  · rw [hst]
  · rw [hst]
  · rw [hst]
    simp [counterKeys, findA_append, hnone, findA, counterAdd]
  · rw [hst]
    simp [counterVal, findA_append, hnone, findA, counterAdd, putA, seriesKey]

/-- The fixture for C7: an independent caller has already registered
`counter:m` (with no labels and empty help) in the shared registry; the
client's cache knows nothing about it. -/
def stR : ClientState := { emptyState with registry := [⟨"counter:m", [], ""⟩] }

/-- C7 witness: the conflict theorem applied to `stR` — the observation is
still recorded into the candidate family and the registry stays as the
independent caller left it. -/
theorem C7_registration_conflict_witness :
    ∃ ek, (ek = "register_counter_dup" ∨ ek = "register_counter") ∧
      (RecordN cfg0 stR ⟨none⟩ "m" "d" 1 []).errs =
        stR.errs ++ [(buildFQName cfg0 "m" cfg0.names.Counter, ek)] ∧
      (RecordN cfg0 stR ⟨none⟩ "m" "d" 1 []).logs = stR.logs ++ [ek] ∧
      (RecordN cfg0 stR ⟨none⟩ "m" "d" 1 []).registry = stR.registry ∧
      counterKeys (RecordN cfg0 stR ⟨none⟩ "m" "d" 1 [])
        (buildFQName cfg0 "m" cfg0.names.Counter) =
        some (keysA (mergedTags ⟨none⟩ [])) ∧
      counterVal (RecordN cfg0 stR ⟨none⟩ "m" "d" 1 [])
        (buildFQName cfg0 "m" cfg0.names.Counter)
        (seriesKey (keysA (mergedTags ⟨none⟩ [])) (mergedTags ⟨none⟩ [])) = some 1 :=
  C7_registration_conflict cfg0 stR ⟨none⟩ "m" "d" 1 [] (by decide) (by decide)

/-- C1: on a histogram family already fixed by its first observation, a later
call requesting different bucket boundaries still records its value into the
family created first (provided, as always, its label keys resolve in that
family — `hm`), reports a `histogram_buckets_mismatch` (config-drift) error
to the ErrorSink and the logger, and leaves the stored boundaries unchanged:
the family is never reconfigured. -/
theorem C1_histogram_config_lockin (c : ClientCfg) (st : ClientState) (ctx : GoContext)
    (name desc : String) (value : ℚ) (buckets : List ℚ) (kvs : List String)
    (w : HistogramVec) (o : HistogramOpts)
    (hv : findA st.histogram (buildFQName c name c.names.Histogram) = some (w, o))
    (hdiff : o.Buckets ≠ buckets)
    (hm : labelsMatch w.labelKeys (mergedTags ctx kvs) = true) :
    histBuckets (Histogram c st ctx name desc value buckets kvs)
      (buildFQName c name c.names.Histogram) = some o.Buckets ∧
    histSeriesObs (Histogram c st ctx name desc value buckets kvs)
      (buildFQName c name c.names.Histogram)
      (seriesKey w.labelKeys (mergedTags ctx kvs)) =
      some ((findA w.series (seriesKey w.labelKeys (mergedTags ctx kvs))).getD [] ++ [value]) ∧
    (Histogram c st ctx name desc value buckets kvs).errs =
      st.errs ++ [(buildFQName c name c.names.Histogram, "histogram_buckets_mismatch")] ∧
    (Histogram c st ctx name desc value buckets kvs).logs =
      st.logs ++ ["histogram_buckets_mismatch"] := by
  have hrw : Histogram c st ctx name desc value buckets kvs =
      bumpHist (dropWith st (buildFQName c name c.names.Histogram)
          "histogram_buckets_mismatch" "histogram_buckets_mismatch")
        (buildFQName c name c.names.Histogram)
        (seriesKey w.labelKeys (mergedTags ctx kvs)) value :=
    recordHistogram_present_drift_match c st ctx
      (buildFQName c name c.names.Histogram) desc value buckets kvs w o hv hdiff hm
  rw [hrw]
  refine ⟨?_, ?_, rfl, rfl⟩
  · simp [histBuckets, bumpHist, dropWith, findA_updA, hv]
  · simp [histSeriesObs, bumpHist, dropWith, findA_updA, hv, histObserve, findA_putA_self]

/-- The state after a first histogram observation
`Histogram(ctx, "h", "d", 2, [1,2,3])`: the family `histogram:h` exists with
boundaries `[1,2,3]`, no labels, and one recorded observation. -/
def stH : ClientState := Histogram cfg0 emptyState ⟨none⟩ "h" "d" 2 [1, 2, 3] []

/-- The `histogram:h` family vec stored inside `stH`. -/
def w1 : HistogramVec := ⟨[], [([], [2])]⟩

/-- The `histogram:h` opts stored inside `stH`. -/
def o1 : HistogramOpts := ⟨"histogram:h", "d", [1, 2, 3]⟩

theorem stH_eval : stH =
    { counter := [], histogram := [("histogram:h", (w1, o1))],
      registry := [⟨"histogram:h", [], "d"⟩], errs := [], logs := [] } := by
  simp [stH, cfg0, Histogram, recordHistogram, getHistogram, tags, mergedTags, applyKVs,
    rangeKV, CtxGetLabels, ctxGetLabels, putA, findA, updA, keysA, labelsMatch, seriesKey,
    histObserve, clientRegister, registryRegister, buildFQName, EscapeName,
    isValidLegacyName, isValidLegacyRune, mkClient, defaultNames, emptyState, w1, o1]
  decide

/-- C1 witness: after fixing `[1,2,3]`, a call with `[5,10]` still records 7,
raises the drift error, and the stored boundaries remain `[1,2,3]`. -/
theorem C1_histogram_config_lockin_witness :
    findA stH.histogram (buildFQName cfg0 "h" cfg0.names.Histogram) = some (w1, o1) ∧
    histBuckets (Histogram cfg0 stH ⟨none⟩ "h" "d" 7 [5, 10] [])
      (buildFQName cfg0 "h" cfg0.names.Histogram) = some o1.Buckets ∧
    histSeriesObs (Histogram cfg0 stH ⟨none⟩ "h" "d" 7 [5, 10] [])
      (buildFQName cfg0 "h" cfg0.names.Histogram)
      (seriesKey w1.labelKeys (mergedTags ⟨none⟩ [])) =
      some ((findA w1.series (seriesKey w1.labelKeys (mergedTags ⟨none⟩ []))).getD [] ++ [7]) ∧
    (Histogram cfg0 stH ⟨none⟩ "h" "d" 7 [5, 10] []).errs =
      stH.errs ++ [(buildFQName cfg0 "h" cfg0.names.Histogram, "histogram_buckets_mismatch")] ∧
    (Histogram cfg0 stH ⟨none⟩ "h" "d" 7 [5, 10] []).logs =
      stH.logs ++ ["histogram_buckets_mismatch"] := by
  have hv : findA stH.histogram (buildFQName cfg0 "h" cfg0.names.Histogram) = some (w1, o1) := by
    rw [stH_eval]; decide
  have h := C1_histogram_config_lockin cfg0 stH ⟨none⟩ "h" "d" 7 [5, 10] [] w1 o1 hv
    (by decide) (by decide)
  exact ⟨hv, h.1, h.2.1, h.2.2.1, h.2.2.2⟩

/-- C8: for a timer started at instant `start`, stopping at instant `now`
returns exactly the elapsed duration `now - start`, records exactly that
duration converted to fractional seconds into the timer-profiled histogram
family, and uses the client's configured default bucket list when the
variadic bucket argument is omitted (empty), the given list otherwise. -/
theorem C8_timer_pairing (c : ClientCfg) (bucketsArg : List ℚ) (start now : ℤ)
    (st : ClientState) (ctx : GoContext) (name desc : String) (kvs : List String)
    (hnone : findA st.histogram (buildFQName c name c.names.Timer) = none)
    (hreg : st.registry.any (fun x => x.name == buildFQName c name c.names.Timer) = false) :
    (Timer c bucketsArg start now st ctx name desc kvs).2 = now - start ∧
    histSeriesObs (Timer c bucketsArg start now st ctx name desc kvs).1
      (buildFQName c name c.names.Timer)
      (seriesKey (keysA (mergedTags ctx kvs)) (mergedTags ctx kvs)) =
      some [durSeconds (now - start)] ∧
    (bucketsArg = [] →
      histBuckets (Timer c bucketsArg start now st ctx name desc kvs).1
        (buildFQName c name c.names.Timer) = some c.buckets) ∧
    (bucketsArg ≠ [] →
      histBuckets (Timer c bucketsArg start now st ctx name desc kvs).1
        (buildFQName c name c.names.Timer) = some bucketsArg) := by
  have hrw : (Timer c bucketsArg start now st ctx name desc kvs).1 =
      recordHistogram c st ctx (buildFQName c name c.names.Timer) desc
        (durSeconds (now - start))
        (if bucketsArg = [] then c.buckets else bucketsArg) kvs := rfl
  refine ⟨rfl, ?_, ?_, ?_⟩
  · rw [hrw, recordHistogram_fresh_state c st ctx _ desc _ _ kvs hnone hreg]
    simp [histSeriesObs, findA_append, hnone, findA, histObserve, putA, seriesKey]
  · intro hb
    rw [hrw, recordHistogram_fresh_state c st ctx _ desc _ _ kvs hnone hreg]
    simp [histBuckets, findA_append, hnone, findA, hb]
  · intro hb
    rw [hrw, recordHistogram_fresh_state c st ctx _ desc _ _ kvs hnone hreg]
    simp [histBuckets, findA_append, hnone, findA, hb]

/-- C8 witness: a timer started at 0 and stopped at instant 3000000000 (3s in
nanoseconds) on a fresh default client returns 3000000000 and records its
seconds value under the default buckets; with explicit buckets `[1, 5]` the
family stores `[1, 5]`. -/
theorem C8_timer_pairing_witness :
    (Timer cfg0 [] 0 3000000000 emptyState ⟨none⟩ "t" "d" []).2 = 3000000000 - 0 ∧
    histSeriesObs (Timer cfg0 [] 0 3000000000 emptyState ⟨none⟩ "t" "d" []).1
      (buildFQName cfg0 "t" cfg0.names.Timer)
      (seriesKey (keysA (mergedTags ⟨none⟩ [])) (mergedTags ⟨none⟩ [])) =
      some [durSeconds (3000000000 - 0)] ∧
    histBuckets (Timer cfg0 [] 0 3000000000 emptyState ⟨none⟩ "t" "d" []).1
      (buildFQName cfg0 "t" cfg0.names.Timer) = some cfg0.buckets ∧
    histBuckets (Timer cfg0 [1, 5] 0 3000000000 emptyState ⟨none⟩ "t" "d" []).1
      (buildFQName cfg0 "t" cfg0.names.Timer) = some [1, 5] := by
  have h1 := C8_timer_pairing cfg0 [] 0 3000000000 emptyState ⟨none⟩ "t" "d" []
    (by decide) (by decide)
  have h2 := C8_timer_pairing cfg0 [1, 5] 0 3000000000 emptyState ⟨none⟩ "t" "d" []
    (by decide) (by decide)
  exact ⟨h1.1, h1.2.1, h1.2.2.1 rfl, h2.2.2.2 (by decide)⟩

/-- C3: for every schedule interleaving the atomic steps of `n ≥ 1`
concurrent callers that each perform the first observation of one brand-new
metric name, once every caller has finished, exactly one registration
reached the shared registry, the cache slot holds exactly the winning
caller's candidate family, and all `n` observations were recorded. -/
theorem C3_single_registration_under_race (n : ℕ) (hn : 0 < n) (sched : List (Fin n))
    (hdone : ∀ i, (raceRun (raceInit n) sched).pc i = 3) :
    (raceRun (raceInit n) sched).regCount = 1 ∧
    (raceRun (raceInit n) sched).obs = n ∧
    ∃ w, (raceRun (raceInit n) sched).owner = some w ∧
      (raceRun (raceInit n) sched).winner w = true := by
  obtain ⟨h1, h2, h3, h4, h5⟩ := raceInv_run (raceInit n) sched (raceInv_init n)
  cases how : (raceRun (raceInit n) sched).owner with
  | none =>
    have h0 := h3 how ⟨0, hn⟩
    rw [hdone ⟨0, hn⟩] at h0
    exact absurd h0 (by decide)
  | some w =>
    have hw := h2 w how
    refine ⟨?_, ?_, ⟨w, rfl, hw.1⟩⟩
    · rw [how] at h4
      simp only at h4
      rw [hdone w] at h4
      simpa using h4
    · rw [h5]
      have hful : (Finset.univ.filter
          (fun i => (raceRun (raceInit n) sched).pc i = 3)) = Finset.univ := by
        ext i
        simp [hdone i]
      rw [hful, Finset.card_univ, Fintype.card_fin]

/-- C3 witness: two callers, fully interleaved schedule — one registration,
two recorded observations, a unique winning owner. -/
theorem C3_single_registration_under_race_witness :
    (raceRun (raceInit 2) [0, 1, 0, 1, 0, 1]).regCount = 1 ∧
    (raceRun (raceInit 2) [0, 1, 0, 1, 0, 1]).obs = 2 ∧
    ∃ w, (raceRun (raceInit 2) [0, 1, 0, 1, 0, 1]).owner = some w ∧
      (raceRun (raceInit 2) [0, 1, 0, 1, 0, 1]).winner w = true :=
  C3_single_registration_under_race 2 (by decide) [0, 1, 0, 1, 0, 1] (by decide)

end Monitor
